import Mathlib

/-!
Shallow embedding of the weighted cloaked-link redirect service
(`src/src/collections/Deals/index.ts` and `src/unnamed/part_000`).

Numbers are idealized as rationals (`ℚ`); the random source
`Math.random()` is modelled as an explicit draw sequence `r : ℕ → ℚ`,
with the hypothesis `0 ≤ r k ∧ r k < 1` standing for `Math.random()`
returning a value in `[0, 1)`.  JavaScript truthiness of a
`string | null | undefined` value is captured by `falsy`.
-/

/-- A destination record, from the `destinationURLs` array item shape:
`{ url: string; weight?: number | null; label?: string | null; id?: string | null }`.
Only `url` and `weight` are read by the selector. -/
structure Dest where
  url : String
  weight : Option ℚ
  label : Option String
  id : Option String
deriving DecidableEq

/-- Effective weight `dest.weight ?? 1`: default 1 when `weight` is absent or null. -/
def effWeight (d : Dest) : ℚ := d.weight.getD 1

/-- JavaScript truthiness test (negated) for a `string | null | undefined`:
`null`, `undefined` and `""` are falsy. -/
def falsy : Option String → Bool
  | none => true
  | some s => s = ""

/-- JavaScript `s.startsWith(pre)`, over the character lists. -/
def charsStartWith : List Char → List Char → Bool
  | _, [] => true
  | [], _ :: _ => false
  | c :: cs, p :: ps => c = p && charsStartWith cs ps

/-- JavaScript `String.prototype.startsWith`. -/
def jsStartsWith (s pre : String) : Bool :=
  charsStartWith s.data pre.data

namespace Deals

/-- The loop of `selectWeightedDestination` in `src/src/collections/Deals/index.ts`
(lines 17–31): `k` indexes the next unconsumed random draw, `sel` is
`selectedUrl`, `T` is `totalWeight`. -/
def selectAux (r : ℕ → ℚ) : List Dest → ℕ → Option String → ℚ → Option String
  | [], _, sel, _ => sel
  | d :: rest, k, sel, T =>
    if effWeight d ≤ 0 then
      selectAux r rest k sel T
    else
      selectAux r rest (k + 1)
        (if r k * (T + effWeight d) < effWeight d then some d.url else sel)
        (T + effWeight d)

/-- The function `selectWeightedDestination` from
`src/src/collections/Deals/index.ts` (lines 7–34): the bare
weighted-reservoir loop, no fallback. -/
def selectWeightedDestination (dests : List Dest) (r : ℕ → ℚ) : Option String :=
  selectAux r dests 0 none 0

end Deals

namespace Part000

/-- The loop of `selectWeightedDestination` in `src/unnamed/part_000`
(lines 27–43); textually the same loop as the `Deals` version. -/
def selectAux (r : ℕ → ℚ) : List Dest → ℕ → Option String → ℚ → Option String
  | [], _, sel, _ => sel
  | d :: rest, k, sel, T =>
    if effWeight d ≤ 0 then
      selectAux r rest k sel T
    else
      selectAux r rest (k + 1)
        (if r k * (T + effWeight d) < effWeight d then some d.url else sel)
        (T + effWeight d)

/-- The function `selectWeightedDestination` from `src/unnamed/part_000`
(lines 10–53): the loop followed by the built-in first-entry fallback
`if (!selectedUrl && destinations.length > 0) return destinations[0].url`. -/
def selectWeightedDestination (dests : List Dest) (r : ℕ → ℚ) : Option String :=
  let selectedUrl := selectAux r dests 0 none 0
  if falsy selectedUrl then
    match dests with
    | [] => selectedUrl
    | d :: _ => some d.url
  else selectedUrl

end Part000

/-- The projection of a `deals` document fetched by the endpoint handler:
`select: { slug: true, destinationURLs: true }`.  An absent or null
`destinationURLs` field is `none`. -/
structure Doc where
  slug : String
  destinationURLs : Option (List Dest)
deriving DecidableEq

/-- The HTTP responses the endpoint handler can produce:
`Response.redirect(url, status)` or `new Response(body, { status })`. -/
inductive RedirectResult where
  | redirect (url : String) (status : ℕ)
  | response (body : String) (status : ℕ)
deriving DecidableEq

/-- The result of `req.payload.find(...)`: either the fetched documents or a
thrown fault of type `ε` (caught by the handler's `try/catch`). -/
def FindFn (ε : Type) : Type := String → Except ε (List Doc)

namespace Deals

/-- The `GET /go/:slug` endpoint handler of the config in
`src/src/collections/Deals/index.ts` (lines 165–221), which calls the
`Deals` version of `selectWeightedDestination`.  `find` models
`req.payload.find` queried at the canonical slug; `r` is the random source. -/
def handler {ε : Type} (find : FindFn ε) (slug : String) (r : ℕ → ℚ) :
    RedirectResult :=
  match find ("/go/" ++ slug) with
  | .error _ => .response "Internal Server Error" 500
  | .ok docs =>
    match docs with
    | [] => .response "Link not found" 404
    | doc :: _ =>
      match doc.destinationURLs with
      | none => .response "No destination URLs configured for this link." 404
      | some dests =>
        if 0 < dests.length then
          match selectWeightedDestination dests r with
          | none => .response "No valid destination URL configured for this link." 500
          | some url =>
            if url = "" then
              .response "No valid destination URL configured for this link." 500
            else
              .redirect url 302
        else .response "No destination URLs configured for this link." 404

/-- The `beforeValidate` hook on the `slug` field in
`src/src/collections/Deals/index.ts` (lines 56–63):
`if (value && !value.startsWith('/go/')) return '/go/' + value; return value`.
`none` models an `undefined`/`null` value. -/
def beforeValidateSlug : Option String → Option String
  | none => none
  | some v =>
    if v ≠ "" ∧ jsStartsWith v "/go/" = false then some ("/go/" ++ v)
    else some v

end Deals

/-- The character class of the JavaScript regex `\s` (whitespace). -/
def jsWhitespace (c : Char) : Bool :=
  c = ' ' || c = '\t' || c = '\n' || c = '\r' ||
  c.toNat = 0x0b || c.toNat = 0x0c || c.toNat = 0xa0 || c.toNat = 0x1680 ||
  (0x2000 ≤ c.toNat && c.toNat ≤ 0x200a) ||
  c.toNat = 0x2028 || c.toNat = 0x2029 || c.toNat = 0x202f ||
  c.toNat = 0x205f || c.toNat = 0x3000 || c.toNat = 0xfeff

/-- The substitution `replace(/\s+/g, '-')` on a character list: each maximal whitespace run
becomes a single `'-'`.  The flag records whether we are inside a run whose
`'-'` has already been emitted. -/
def collapseWsAux : Bool → List Char → List Char
  | _, [] => []
  | inRun, c :: cs =>
    if jsWhitespace c then
      if inRun then collapseWsAux true cs else '-' :: collapseWsAux true cs
    else c :: collapseWsAux false cs

/-- JavaScript `s.replace(/\s+/g, '-')`. -/
def collapseWs (s : String) : String := ⟨collapseWsAux false s.data⟩

/-- JavaScript `s.replace(/^\//, '')`: remove at most one leading `'/'`. -/
def stripLeadingSlash (s : String) : String :=
  match s.data with
  | c :: rest => if c = '/' then ⟨rest⟩ else s
  | [] => s

namespace Part000

/-- The slug sanitization of `src/unnamed/part_000` (line 77):
`value.replace(/^\//, '').replace(/\s+/g, '-')`. -/
def sanitizeSlug (v : String) : String := collapseWs (stripLeadingSlash v)

/-- The `beforeValidate` hook on the `slug` field in `src/unnamed/part_000`
(lines 72–82): a string not starting with `/go/` is sanitized and prefixed;
everything else is passed through. -/
def beforeValidateSlug : Option String → Option String
  | none => none
  | some v =>
    if jsStartsWith v "/go/" = false then some ("/go/" ++ sanitizeSlug v)
    else some v

/-- The `GET /go/:slug` endpoint handler of `src/unnamed/part_000`
(lines 145–201); textually the same handler, but calling the `Part000`
version of `selectWeightedDestination` (the one with the built-in
first-entry fallback). -/
def handler {ε : Type} (find : FindFn ε) (slug : String) (r : ℕ → ℚ) :
    RedirectResult :=
  match find ("/go/" ++ slug) with
  | .error _ => .response "Internal Server Error" 500
  | .ok docs =>
    match docs with
    | [] => .response "Link not found" 404
    | doc :: _ =>
      match doc.destinationURLs with
      | none => .response "No destination URLs configured for this link." 404
      | some dests =>
        if 0 < dests.length then
          match selectWeightedDestination dests r with
          | none => .response "No valid destination URL configured for this link." 500
          | some url =>
            if url = "" then
              .response "No valid destination URL configured for this link." 500
            else
              .redirect url 302
        else .response "No destination URLs configured for this link." 404

end Part000

/-- Probability that a uniform draw `r` in `[0, 1)` satisfies
`r * (T + w) < w` — the acceptance test of the sampling loop — namely
`w / (T + w)` (see `accept_event_volume` for the measure-theoretic
justification). -/
def accProb (T w : ℚ) : ℚ := w / (T + w)

/-- Sum of the positive effective weights of a destination list
(the final value of `totalWeight` in the sampling loop). -/
def posSum : List Dest → ℚ
  | [] => 0
  | d :: rest => if 0 < effWeight d then effWeight d + posSum rest else posSum rest

/-- The urls of the positively-weighted destinations, in order. -/
def posUrls : List Dest → List String
  | [] => []
  | d :: rest => if 0 < effWeight d then d.url :: posUrls rest else posUrls rest

/-- Distribution semantics of the sampling loop of `selectWeightedDestination`
(the loop shared by both source files), with the uniform draw of each
iteration integrated out: `selectDistAux l sel T o` is the probability that
the loop, started with `selectedUrl = sel` and `totalWeight = T` and run over
`l`, terminates with `selectedUrl = o`.  Each iteration with positive
effective weight `w` replaces the selection with probability
`accProb T w = w / (T + w)`. -/
def selectDistAux : List Dest → Option String → ℚ → Option String → ℚ
  | [], sel, _, o => if o = sel then 1 else 0
  | d :: rest, sel, T, o =>
    if effWeight d ≤ 0 then selectDistAux rest sel T o
    else
      accProb T (effWeight d) * selectDistAux rest (some d.url) (T + effWeight d) o
        + (1 - accProb T (effWeight d)) * selectDistAux rest sel (T + effWeight d) o

/-- Probability that `selectWeightedDestination`'s loop returns `o`,
starting from `selectedUrl = null`, `totalWeight = 0`. -/
def selectDist (dests : List Dest) (o : Option String) : ℚ :=
  selectDistAux dests none 0 o

/-! ## Helper lemmas about the sampling loop -/

theorem dealsSelectAux_nonpos (r : ℕ → ℚ) (l : List Dest) :
    ∀ (k : ℕ) (sel : Option String) (T : ℚ),
      (∀ d ∈ l, effWeight d ≤ 0) → Deals.selectAux r l k sel T = sel := by
  induction l with
  | nil => intro k sel T _; rfl
  | cons d rest ih =>
    intro k sel T h
    have hd : effWeight d ≤ 0 := h d (by simp)
    rw [Deals.selectAux, if_pos hd]
    exact ih k sel T fun e he => h e (by simp [he])

theorem part000SelectAux_eq_deals (r : ℕ → ℚ) (l : List Dest) :
    ∀ (k : ℕ) (sel : Option String) (T : ℚ),
      Part000.selectAux r l k sel T = Deals.selectAux r l k sel T := by
  induction l with
  | nil => intro k sel T; rfl
  | cons d rest ih =>
    intro k sel T
    rw [Part000.selectAux, Deals.selectAux]
    by_cases hd : effWeight d ≤ 0
    · rw [if_pos hd, if_pos hd, ih]
    · rw [if_neg hd, if_neg hd, ih]

theorem dealsSelectAux_single_pos (r : ℕ → ℚ) (pre : List Dest) :
    ∀ (d : Dest) (post : List Dest) (k : ℕ) (sel : Option String) (T : ℚ),
      (∀ e ∈ pre, effWeight e ≤ 0) → (∀ e ∈ post, effWeight e ≤ 0) →
      0 < effWeight d → r k * (T + effWeight d) < effWeight d →
      Deals.selectAux r (pre ++ d :: post) k sel T = some d.url := by
  induction pre with
  | nil =>
    intro d post k sel T _ hpost hw hcond
    rw [List.nil_append, Deals.selectAux, if_neg (not_le.mpr hw), if_pos hcond]
    exact dealsSelectAux_nonpos r post _ _ _ hpost
  | cons e pre' ih =>
    intro d post k sel T hpre hpost hw hcond
    have he : effWeight e ≤ 0 := hpre e (by simp)
    rw [List.cons_append, Deals.selectAux, if_pos he]
    exact ih d post k sel T (fun x hx => hpre x (by simp [hx])) hpost hw hcond

theorem dealsSelectAux_falsy (r : ℕ → ℚ) (l : List Dest) :
    ∀ (k : ℕ) (sel : Option String) (T : ℚ),
      (∀ d ∈ l, d.url = "") → falsy sel = true →
      falsy (Deals.selectAux r l k sel T) = true := by
  induction l with
  | nil => intro k sel T _ hsel; exact hsel
  | cons d rest ih =>
    intro k sel T h hsel
    have hd : d.url = "" := h d (by simp)
    have hrest : ∀ e ∈ rest, e.url = "" := fun e he => h e (by simp [he])
    rw [Deals.selectAux]
    by_cases hw : effWeight d ≤ 0
    · rw [if_pos hw]; exact ih k sel T hrest hsel
    · rw [if_neg hw]
      apply ih _ _ _ hrest
      by_cases hc : r k * (T + effWeight d) < effWeight d
      · rw [if_pos hc]; simp [falsy, hd]
      · rw [if_neg hc]; exact hsel

/-! ## C1 -/

/-- C1, corrected: when every destination's effective weight is zero or
negative, the `Deals/index.ts` `selectWeightedDestination` returns `none`,
while the `part_000` version returns `none` only on the empty list and
otherwise returns the first destination's url via its built-in fallback. -/
theorem spec_C1_amended (dests : List Dest) (r : ℕ → ℚ)
    (h : ∀ d ∈ dests, effWeight d ≤ 0) :
    Deals.selectWeightedDestination dests r = none ∧
    Part000.selectWeightedDestination dests r =
      (match dests with
       | [] => none
       | d :: _ => some d.url) := by
  have hA : Deals.selectWeightedDestination dests r = none :=
    dealsSelectAux_nonpos r dests 0 none 0 h
  refine ⟨hA, ?_⟩
  unfold Part000.selectWeightedDestination
  rw [part000SelectAux_eq_deals]
  have hA' : Deals.selectAux r dests 0 none 0 = none := hA
  rw [hA']
  cases dests with
  | nil => rfl
  | cons d rest => rfl

/-- C1, counterexample to the claim as stated: a one-element list with
weight 0 satisfies the claim's hypothesis, yet the `part_000`
`selectWeightedDestination` returns the destination's url, not `none`. -/
theorem spec_C1_cex :
    (∀ d ∈ ([⟨"https://a.example", some 0, none, none⟩] : List Dest),
      effWeight d ≤ 0) ∧
    Part000.selectWeightedDestination
      ([⟨"https://a.example", some 0, none, none⟩] : List Dest) (fun _ => 0)
      = some "https://a.example" := by decide

/-- C1, witness: the amended theorem applied to a concrete input. -/
theorem spec_C1_witness :
    Deals.selectWeightedDestination
      ([⟨"https://b.example", some 0, none, none⟩] : List Dest) (fun _ => 0)
      = none ∧
    Part000.selectWeightedDestination
      ([⟨"https://b.example", some 0, none, none⟩] : List Dest) (fun _ => 0)
      = some "https://b.example" := by
  have h := spec_C1_amended
    ([⟨"https://b.example", some 0, none, none⟩] : List Dest) (fun _ => 0)
    (by decide)
  exact ⟨h.1, h.2⟩

/-! ## C9 -/

/-- C9, corrected: the two `selectWeightedDestination` definitions share the
same sampling loop, but are not extensionally equal: the `part_000` version
adds a first-entry fallback whenever the loop's result is falsy (null or the
empty string) and the list is non-empty. -/
theorem spec_C9_amended (dests : List Dest) (r : ℕ → ℚ) :
    Part000.selectWeightedDestination dests r =
      (if falsy (Deals.selectWeightedDestination dests r) then
        (match dests with
         | [] => Deals.selectWeightedDestination dests r
         | d :: _ => some d.url)
       else Deals.selectWeightedDestination dests r) := by
  unfold Part000.selectWeightedDestination Deals.selectWeightedDestination
  rw [part000SelectAux_eq_deals]

/-- C9, counterexample: at a one-element list with weight 0 the two
definitions disagree. -/
theorem spec_C9_cex :
    Part000.selectWeightedDestination
      ([⟨"https://c.example", some 0, none, none⟩] : List Dest) (fun _ => 0)
      = some "https://c.example" ∧
    Deals.selectWeightedDestination
      ([⟨"https://c.example", some 0, none, none⟩] : List Dest) (fun _ => 0)
      = none := by decide

/-! ## C3 -/

/-- C3, corrected: for a list with exactly one positively-weighted
destination (decomposed as `pre ++ d :: post` with all of `pre`, `post`
non-positive), the `Deals/index.ts` version always returns that
destination's url, for every draw sequence in `[0,1)`; the `part_000`
version does so provided that url is not the empty string. -/
theorem spec_C3_amended (pre post : List Dest) (d : Dest) (r : ℕ → ℚ)
    (hr : ∀ k, 0 ≤ r k ∧ r k < 1)
    (hpre : ∀ e ∈ pre, effWeight e ≤ 0)
    (hpost : ∀ e ∈ post, effWeight e ≤ 0)
    (hw : 0 < effWeight d) :
    Deals.selectWeightedDestination (pre ++ d :: post) r = some d.url ∧
    (d.url ≠ "" →
      Part000.selectWeightedDestination (pre ++ d :: post) r = some d.url) := by
  have hcond : r 0 * (0 + effWeight d) < effWeight d := by
    rw [zero_add]
    exact (mul_lt_iff_lt_one_left hw).mpr (hr 0).2
  have hA : Deals.selectWeightedDestination (pre ++ d :: post) r = some d.url :=
    dealsSelectAux_single_pos r pre d post 0 none 0 hpre hpost hw hcond
  refine ⟨hA, fun hurl => ?_⟩
  unfold Part000.selectWeightedDestination
  rw [part000SelectAux_eq_deals]
  have hA' : Deals.selectAux r (pre ++ d :: post) 0 none 0 = some d.url := hA
  rw [hA']
  simp [falsy, hurl]

/-- C3, counterexample to the claim as stated: the unique positively-weighted
destination has the empty string as url; the `part_000` version then returns
the first (zero-weight) destination's url instead. -/
theorem spec_C3_cex :
    (0 : ℚ) < effWeight (⟨"", some 1, none, none⟩ : Dest) ∧
    Part000.selectWeightedDestination
      ([⟨"https://first.example", some 0, none, none⟩,
        ⟨"", some 1, none, none⟩] : List Dest) (fun _ => 0)
      = some "https://first.example" := by
  constructor
  · decide
  · norm_num [Part000.selectWeightedDestination, Part000.selectAux, effWeight, falsy]

/-- C3, witness: the amended theorem applied to a concrete input. -/
theorem spec_C3_witness :
    Deals.selectWeightedDestination
      (([⟨"https://z.example", some 0, none, none⟩] : List Dest) ++
        (⟨"https://a.example", some 2, none, none⟩ : Dest) :: [])
      (fun _ => 1/2) = some "https://a.example" ∧
    Part000.selectWeightedDestination
      (([⟨"https://z.example", some 0, none, none⟩] : List Dest) ++
        (⟨"https://a.example", some 2, none, none⟩ : Dest) :: [])
      (fun _ => 1/2) = some "https://a.example" := by
  have h := spec_C3_amended
    ([⟨"https://z.example", some 0, none, none⟩] : List Dest) []
    (⟨"https://a.example", some 2, none, none⟩ : Dest) (fun _ => 1/2)
    (fun k => ⟨by norm_num, by norm_num⟩) (by decide) (by decide)
    (by norm_num [effWeight])
  exact ⟨h.1, h.2 (by decide)⟩

/-! ## Helper: the part_000 selector in terms of the Deals selector -/

theorem part000Select_eq (dests : List Dest) (r : ℕ → ℚ) :
    Part000.selectWeightedDestination dests r =
      (if falsy (Deals.selectWeightedDestination dests r) then
        (match dests with
         | [] => Deals.selectWeightedDestination dests r
         | d :: _ => some d.url)
       else Deals.selectWeightedDestination dests r) := by
  unfold Part000.selectWeightedDestination Deals.selectWeightedDestination
  rw [part000SelectAux_eq_deals]

/-! ## C2 -/

/-- C2, corrected: neither resolver implements a first-entry fallback outside
the Selector.  For a found record whose non-empty destination list has only
non-positive weights, the `Deals/index.ts` resolver returns the
`ServerError` response (body `"No valid destination URL configured for this
link."`, status 500); the `part_000` pipeline redirects to the first entry
only because the fallback sits inside its Selector, and itself returns that
`ServerError` when the first entry's url is the empty string. -/
theorem spec_C2_amended {ε : Type} (find : FindFn ε) (slug : String)
    (r : ℕ → ℚ) (doc : Doc) (docs' : List Doc) (d : Dest) (rest : List Dest)
    (hfind : find ("/go/" ++ slug) = .ok (doc :: docs'))
    (hurls : doc.destinationURLs = some (d :: rest))
    (hnp : ∀ e ∈ d :: rest, effWeight e ≤ 0) :
    Deals.handler find slug r
      = .response "No valid destination URL configured for this link." 500 ∧
    Part000.handler find slug r
      = (if d.url = "" then
          RedirectResult.response
            "No valid destination URL configured for this link." 500
         else RedirectResult.redirect d.url 302) := by
  have hselA : Deals.selectWeightedDestination (d :: rest) r = none :=
    dealsSelectAux_nonpos r _ 0 none 0 hnp
  have hselB : Part000.selectWeightedDestination (d :: rest) r = some d.url := by
    rw [part000Select_eq, hselA]
    rfl
  constructor
  · simp [Deals.handler, hfind, hurls, hselA]
  · by_cases hurl : d.url = "" <;>
      simp [Part000.handler, hfind, hurls, hselB, hurl]

/-- C2, counterexample to the claim as stated: a found record with the
non-empty destination list `[{url: "https://a.example", weight: 0}]` makes
the `Deals/index.ts` selector return `none`, yet the resolver of that file
answers with the 500 `ServerError` response instead of falling back to the
first entry. -/
theorem spec_C2_cex :
    Deals.selectWeightedDestination
      ([⟨"https://a.example", some 0, none, none⟩] : List Dest) (fun _ => 0)
      = none ∧
    Deals.handler
      (fun _ => (Except.ok
        [⟨"/go/promo", some [⟨"https://a.example", some 0, none, none⟩]⟩]
        : Except Unit (List Doc)))
      "promo" (fun _ => 0)
      = RedirectResult.response
          "No valid destination URL configured for this link." 500 := by decide

/-- C2, witness: the amended theorem applied to a concrete input. -/
theorem spec_C2_witness :
    Deals.handler
      (fun _ => (Except.ok
        [⟨"/go/offer", some [⟨"https://d.example", some 0, none, none⟩]⟩]
        : Except Unit (List Doc)))
      "offer" (fun _ => 0)
      = RedirectResult.response
          "No valid destination URL configured for this link." 500 ∧
    Part000.handler
      (fun _ => (Except.ok
        [⟨"/go/offer", some [⟨"https://d.example", some 0, none, none⟩]⟩]
        : Except Unit (List Doc)))
      "offer" (fun _ => 0)
      = RedirectResult.redirect "https://d.example" 302 := by
  have h := spec_C2_amended
    (fun _ => (Except.ok
      [⟨"/go/offer", some [⟨"https://d.example", some 0, none, none⟩]⟩]
      : Except Unit (List Doc)))
    "offer" (fun _ => 0)
    ⟨"/go/offer", some [⟨"https://d.example", some 0, none, none⟩]⟩ []
    ⟨"https://d.example", some 0, none, none⟩ []
    rfl rfl (by decide)
  refine ⟨h.1, ?_⟩
  rw [h.2]
  decide

/-! ## C6 -/

/-- C6, amended: when the record is found but `destinationURLs` is absent or
empty, both resolvers answer 404 with the body
`"No destination URLs configured for this link."` (with a trailing period,
unlike the message quoted in the claim). -/
theorem spec_C6_amended {ε : Type} (find : FindFn ε) (slug : String)
    (r : ℕ → ℚ) (doc : Doc) (docs' : List Doc)
    (hfind : find ("/go/" ++ slug) = .ok (doc :: docs'))
    (hurls : doc.destinationURLs = none ∨ doc.destinationURLs = some []) :
    Deals.handler find slug r
      = .response "No destination URLs configured for this link." 404 ∧
    Part000.handler find slug r
      = .response "No destination URLs configured for this link." 404 := by
  rcases hurls with h | h <;>
    exact ⟨by simp [Deals.handler, hfind, h], by simp [Part000.handler, hfind, h]⟩

/-- C6, counterexample to the claim as stated: the emitted body carries a
trailing period, so it differs from the message quoted in the claim. -/
theorem spec_C6_cex :
    Deals.handler
      (fun _ => (Except.ok [⟨"/go/empty", some []⟩] : Except Unit (List Doc)))
      "empty" (fun _ => 0)
      = RedirectResult.response
          "No destination URLs configured for this link." 404 ∧
    "No destination URLs configured for this link." ≠
      "No destination URLs configured for this link" := by decide

/-- C6, witness: the amended theorem applied to a concrete input. -/
theorem spec_C6_witness :
    Deals.handler
      (fun _ => (Except.ok [⟨"/go/none", none⟩] : Except Unit (List Doc)))
      "none" (fun _ => 0)
      = RedirectResult.response
          "No destination URLs configured for this link." 404 ∧
    Part000.handler
      (fun _ => (Except.ok [⟨"/go/none", none⟩] : Except Unit (List Doc)))
      "none" (fun _ => 0)
      = RedirectResult.response
          "No destination URLs configured for this link." 404 :=
  spec_C6_amended
    (fun _ => (Except.ok [⟨"/go/none", none⟩] : Except Unit (List Doc)))
    "none" (fun _ => 0) ⟨"/go/none", none⟩ [] rfl (Or.inl rfl)

/-! ## C7 -/

/-- C7, confirmed: when the storage lookup returns no record, both resolvers
answer 404 with the exact body `"Link not found"`. -/
theorem spec_C7 {ε : Type} (find : FindFn ε) (slug : String) (r : ℕ → ℚ)
    (hfind : find ("/go/" ++ slug) = .ok []) :
    Deals.handler find slug r = .response "Link not found" 404 ∧
    Part000.handler find slug r = .response "Link not found" 404 :=
  ⟨by simp [Deals.handler, hfind], by simp [Part000.handler, hfind]⟩

/-- C7, witness. -/
theorem spec_C7_witness :
    Deals.handler (fun _ => (Except.ok [] : Except Unit (List Doc)))
      "missing" (fun _ => 0)
      = RedirectResult.response "Link not found" 404 ∧
    Part000.handler (fun _ => (Except.ok [] : Except Unit (List Doc)))
      "missing" (fun _ => 0)
      = RedirectResult.response "Link not found" 404 :=
  spec_C7 (fun _ => (Except.ok [] : Except Unit (List Doc)))
    "missing" (fun _ => 0) rfl

/-! ## C8 -/

/-- C8, confirmed: any fault thrown by the storage lookup is caught and both
resolvers answer 500 with body `"Internal Server Error"`; the handler is a
total function into `RedirectResult`, so no fault propagates. -/
theorem spec_C8 {ε : Type} (find : FindFn ε) (slug : String) (r : ℕ → ℚ)
    (e : ε) (hfind : find ("/go/" ++ slug) = .error e) :
    Deals.handler find slug r = .response "Internal Server Error" 500 ∧
    Part000.handler find slug r = .response "Internal Server Error" 500 :=
  ⟨by simp [Deals.handler, hfind], by simp [Part000.handler, hfind]⟩

/-- C8, witness. -/
theorem spec_C8_witness :
    Deals.handler (fun _ => (Except.error () : Except Unit (List Doc)))
      "boom" (fun _ => 0)
      = RedirectResult.response "Internal Server Error" 500 ∧
    Part000.handler (fun _ => (Except.error () : Except Unit (List Doc)))
      "boom" (fun _ => 0)
      = RedirectResult.response "Internal Server Error" 500 :=
  spec_C8 (fun _ => (Except.error () : Except Unit (List Doc)))
    "boom" (fun _ => 0) () rfl

/-! ## C10 -/

/-- C10, confirmed: for a found record whose non-empty destination list has
only empty-string urls, both resolvers treat the selection as unusable and
answer 500 with body `"No valid destination URL configured for this link."`. -/
theorem spec_C10 {ε : Type} (find : FindFn ε) (slug : String) (r : ℕ → ℚ)
    (doc : Doc) (docs' : List Doc) (dests : List Dest)
    (hfind : find ("/go/" ++ slug) = .ok (doc :: docs'))
    (hurls : doc.destinationURLs = some dests)
    (hne : dests ≠ [])
    (hempty : ∀ e ∈ dests, e.url = "") :
    Deals.handler find slug r
      = .response "No valid destination URL configured for this link." 500 ∧
    Part000.handler find slug r
      = .response "No valid destination URL configured for this link." 500 := by
  have hfalsy : falsy (Deals.selectWeightedDestination dests r) = true :=
    dealsSelectAux_falsy r dests 0 none 0 hempty rfl
  obtain ⟨d, ds, rfl⟩ : ∃ d ds, dests = d :: ds := by
    cases dests with
    | nil => exact absurd rfl hne
    | cons d ds => exact ⟨d, ds, rfl⟩
  have hdurl : d.url = "" := hempty d (by simp)
  constructor
  · cases hsel : Deals.selectWeightedDestination (d :: ds) r with
    | none => simp [Deals.handler, hfind, hurls, hsel]
    | some url =>
      have hurl : url = "" := by
        rw [hsel] at hfalsy
        simpa [falsy] using hfalsy
      simp [Deals.handler, hfind, hurls, hsel, hurl]
  · have hselB : Part000.selectWeightedDestination (d :: ds) r = some d.url := by
      rw [part000Select_eq]
      simp [hfalsy]
    simp [Part000.handler, hfind, hurls, hselB, hdurl]

/-- C10, witness. -/
theorem spec_C10_witness :
    Deals.handler
      (fun _ => (Except.ok [⟨"/go/blank", some [⟨"", some 1, none, none⟩]⟩]
        : Except Unit (List Doc)))
      "blank" (fun _ => 0)
      = RedirectResult.response
          "No valid destination URL configured for this link." 500 ∧
    Part000.handler
      (fun _ => (Except.ok [⟨"/go/blank", some [⟨"", some 1, none, none⟩]⟩]
        : Except Unit (List Doc)))
      "blank" (fun _ => 0)
      = RedirectResult.response
          "No valid destination URL configured for this link." 500 :=
  spec_C10
    (fun _ => (Except.ok [⟨"/go/blank", some [⟨"", some 1, none, none⟩]⟩]
      : Except Unit (List Doc)))
    "blank" (fun _ => 0)
    ⟨"/go/blank", some [⟨"", some 1, none, none⟩]⟩ []
    [⟨"", some 1, none, none⟩] rfl rfl (by decide) (by decide)

/-! ## Helper lemmas about slug strings -/

theorem charsStartWith_append_self (p : List Char) :
    ∀ l : List Char, charsStartWith (p ++ l) p = true := by
  induction p with
  | nil =>
    intro l
    cases l <;> rfl
  | cons c cs ih =>
    intro l
    simp [charsStartWith, ih l]

theorem jsStartsWith_append_self (p v : String) :
    jsStartsWith (p ++ v) p = true := by
  unfold jsStartsWith
  rw [String.data_append]
  exact charsStartWith_append_self p.data v.data

theorem go_append_ne_empty (v : String) : "/go/" ++ v ≠ "" := by
  intro h
  have := congrArg String.data h
  rw [String.data_append] at this
  simp at this

/-! ## C5 -/

/-- C5, amended: both `beforeValidate` hooks are the identity on slugs that
already start with `/go/`, and both are idempotent.  The `Deals/index.ts`
hook prepends `/go/` to any non-empty slug missing the prefix, leaving the
remainder unchanged, but leaves the empty string untouched.  The `part_000`
hook first sanitizes the remainder (dropping one leading `/` and collapsing
whitespace runs to `-`), so its normalization is not remainder-preserving. -/
theorem spec_C5_amended :
    (∀ v : String, jsStartsWith v "/go/" = true →
      Deals.beforeValidateSlug (some v) = some v ∧
      Part000.beforeValidateSlug (some v) = some v) ∧
    (∀ v : String, v ≠ "" → jsStartsWith v "/go/" = false →
      Deals.beforeValidateSlug (some v) = some ("/go/" ++ v)) ∧
    Deals.beforeValidateSlug (some "") = some "" ∧
    (∀ v : String, jsStartsWith v "/go/" = false →
      Part000.beforeValidateSlug (some v)
        = some ("/go/" ++ Part000.sanitizeSlug v)) ∧
    (∀ x : Option String,
      Deals.beforeValidateSlug (Deals.beforeValidateSlug x)
        = Deals.beforeValidateSlug x) ∧
    (∀ x : Option String,
      Part000.beforeValidateSlug (Part000.beforeValidateSlug x)
        = Part000.beforeValidateSlug x) := by
  refine ⟨?_, ?_, by decide, ?_, ?_, ?_⟩
  · intro v h
    constructor <;> simp [Deals.beforeValidateSlug, Part000.beforeValidateSlug, h]
  · intro v hv h
    simp [Deals.beforeValidateSlug, hv, h]
  · intro v h
    simp [Part000.beforeValidateSlug, h]
  · intro x
    match x with
    | none => rfl
    | some v =>
      by_cases hv : v ≠ "" ∧ jsStartsWith v "/go/" = false
      · rw [show Deals.beforeValidateSlug (some v) = some ("/go/" ++ v) by
          simp [Deals.beforeValidateSlug, hv.1, hv.2]]
        simp [Deals.beforeValidateSlug, jsStartsWith_append_self]
      · rw [show Deals.beforeValidateSlug (some v) = some v by
          simp [Deals.beforeValidateSlug, hv]]
        simp [Deals.beforeValidateSlug, hv]
  · intro x
    match x with
    | none => rfl
    | some v =>
      by_cases hv : jsStartsWith v "/go/" = false
      · rw [show Part000.beforeValidateSlug (some v)
            = some ("/go/" ++ Part000.sanitizeSlug v) by
          simp [Part000.beforeValidateSlug, hv]]
        simp [Part000.beforeValidateSlug, jsStartsWith_append_self]
      · rw [show Part000.beforeValidateSlug (some v) = some v by
          simp [Part000.beforeValidateSlug, hv]]
        simp [Part000.beforeValidateSlug, hv]

/-- C5, counterexample to the claim as stated: the `part_000` hook rewrites
the remainder (`"/x"` becomes `"x"`), and the `Deals/index.ts` hook does not
prepend the prefix to the empty string. -/
theorem spec_C5_cex :
    Part000.beforeValidateSlug (some "/x") = some "/go/x" ∧
    some "/go/x" ≠ some ("/go/" ++ "/x") ∧
    Deals.beforeValidateSlug (some "") = some "" := by decide

/-- C5, witness: the amended theorem applied to concrete slugs. -/
theorem spec_C5_witness :
    Deals.beforeValidateSlug (some "/go/promo") = some "/go/promo" ∧
    Deals.beforeValidateSlug (some "promo") = some ("/go/" ++ "promo") := by
  exact ⟨(spec_C5_amended.1 "/go/promo" (by decide)).1,
    spec_C5_amended.2.1 "promo" (by decide) (by decide)⟩

/-! ## Helper lemmas for the distribution semantics -/

theorem posSum_nonneg (l : List Dest) : 0 ≤ posSum l := by
  induction l with
  | nil => exact le_refl 0
  | cons d rest ih =>
    rw [posSum]
    by_cases h : 0 < effWeight d
    · rw [if_pos h]; linarith
    · rw [if_neg h]; exact ih

theorem posUrls_append (a b : List Dest) :
    posUrls (a ++ b) = posUrls a ++ posUrls b := by
  induction a with
  | nil => simp [posUrls]
  | cons d rest ih =>
    rw [List.cons_append, posUrls, posUrls]
    by_cases h : 0 < effWeight d
    · rw [if_pos h, if_pos h, ih, List.cons_append]
    · rw [if_neg h, if_neg h, ih]

theorem selectDistAux_ne (l : List Dest) :
    ∀ (sel o : Option String) (T : ℚ), o ≠ sel →
      (∀ u ∈ posUrls l, o ≠ some u) →
      selectDistAux l sel T o = 0 := by
  induction l with
  | nil => intro sel o T hne _; simp [selectDistAux, hne]
  | cons d rest ih =>
    intro sel o T hne hpos
    rw [selectDistAux]
    by_cases hw : effWeight d ≤ 0
    · rw [if_pos hw]
      refine ih sel o T hne fun u hu => hpos u ?_
      rw [posUrls, if_neg (not_lt.mpr hw)]
      exact hu
    · rw [if_neg hw]
      have hw' : 0 < effWeight d := lt_of_not_le hw
      have hd : o ≠ some d.url := hpos d.url (by rw [posUrls, if_pos hw']; simp)
      have hrest : ∀ u ∈ posUrls rest, o ≠ some u := fun u hu =>
        hpos u (by rw [posUrls, if_pos hw']; simp [hu])
      rw [ih _ _ _ hd hrest, ih _ _ _ hne hrest]
      ring

theorem selectDistAux_keep (l : List Dest) :
    ∀ (sel : Option String) (T : ℚ), 0 < T →
      (∀ u ∈ posUrls l, sel ≠ some u) →
      selectDistAux l sel T sel = T / (T + posSum l) := by
  induction l with
  | nil =>
    intro sel T hT _
    rw [selectDistAux, posSum, add_zero, div_self (ne_of_gt hT)]
    simp
  | cons d rest ih =>
    intro sel T hT hsel
    rw [selectDistAux]
    by_cases hw : effWeight d ≤ 0
    · rw [if_pos hw]
      have hps : posSum (d :: rest) = posSum rest := by
        rw [posSum, if_neg (not_lt.mpr hw)]
      rw [hps]
      refine ih sel T hT fun u hu => hsel u ?_
      rw [posUrls, if_neg (not_lt.mpr hw)]
      exact hu
    · rw [if_neg hw]
      have hw' : 0 < effWeight d := lt_of_not_le hw
      have hdT : 0 < T + effWeight d := by linarith
      have hselhd : sel ≠ some d.url :=
        hsel d.url (by rw [posUrls, if_pos hw']; simp)
      have hrest : ∀ u ∈ posUrls rest, sel ≠ some u := fun u hu =>
        hsel u (by rw [posUrls, if_pos hw']; simp [hu])
      have h1 : selectDistAux rest (some d.url) (T + effWeight d) sel = 0 :=
        selectDistAux_ne rest (some d.url) sel (T + effWeight d) hselhd hrest
      have h2 : selectDistAux rest sel (T + effWeight d) sel
          = (T + effWeight d) / (T + effWeight d + posSum rest) :=
        ih sel (T + effWeight d) hdT hrest
      have hne1 : T + effWeight d ≠ 0 := ne_of_gt hdT
      have e1 : 1 - effWeight d / (T + effWeight d) = T / (T + effWeight d) := by
        rw [eq_div_iff hne1, sub_mul, div_mul_cancel₀ _ hne1, one_mul]
        ring
      rw [h1, h2, posSum, if_pos hw', accProb, mul_zero, zero_add, e1,
        div_mul_div_comm, mul_comm T (T + effWeight d),
        mul_div_mul_left T (T + effWeight d + posSum rest) hne1, add_assoc]

theorem selectDistAux_target (pre : List Dest) :
    ∀ (d : Dest) (post : List Dest) (sel : Option String) (T : ℚ),
      0 ≤ T → 0 < effWeight d →
      (∀ u ∈ posUrls pre, d.url ≠ u) →
      (∀ u ∈ posUrls post, d.url ≠ u) →
      sel ≠ some d.url →
      selectDistAux (pre ++ d :: post) sel T (some d.url)
        = effWeight d / (T + posSum (pre ++ d :: post)) := by
  induction pre with
  | nil =>
    intro d post sel T hT hw hpre hpost hsel
    rw [List.nil_append, selectDistAux, if_neg (not_le.mpr hw)]
    have hdT : 0 < T + effWeight d := by linarith
    have h1 : selectDistAux post (some d.url) (T + effWeight d) (some d.url)
        = (T + effWeight d) / (T + effWeight d + posSum post) :=
      selectDistAux_keep post (some d.url) (T + effWeight d) hdT
        (fun u hu h => hpost u hu (Option.some.inj h))
    have h2 : selectDistAux post sel (T + effWeight d) (some d.url) = 0 :=
      selectDistAux_ne post sel (some d.url) (T + effWeight d)
        (fun h => hsel h.symm) (fun u hu h => hpost u hu (Option.some.inj h))
    have hne1 : T + effWeight d ≠ 0 := ne_of_gt hdT
    rw [h1, h2, posSum, if_pos hw, accProb, mul_zero, add_zero,
      div_mul_div_comm, mul_comm (effWeight d) (T + effWeight d),
      mul_div_mul_left (effWeight d) (T + effWeight d + posSum post) hne1,
      add_assoc]
  | cons e pre' ih =>
    intro d post sel T hT hw hpre hpost hsel
    rw [List.cons_append, selectDistAux]
    by_cases hwe : effWeight e ≤ 0
    · rw [if_pos hwe]
      have hpre' : ∀ u ∈ posUrls pre', d.url ≠ u := by
        intro u hu
        refine hpre u ?_
        rw [posUrls, if_neg (not_lt.mpr hwe)]
        exact hu
      rw [ih d post sel T hT hw hpre' hpost hsel]
      have hps : posSum (e :: (pre' ++ d :: post)) = posSum (pre' ++ d :: post) := by
        rw [posSum, if_neg (not_lt.mpr hwe)]
      rw [hps]
    · rw [if_neg hwe]
      have hwe' : 0 < effWeight e := lt_of_not_le hwe
      have hd_ne_e : d.url ≠ e.url :=
        hpre e.url (by rw [posUrls, if_pos hwe']; simp)
      have hpre' : ∀ u ∈ posUrls pre', d.url ≠ u := fun u hu =>
        hpre u (by rw [posUrls, if_pos hwe']; simp [hu])
      have hTe : 0 ≤ T + effWeight e := by linarith
      have h1 := ih d post (some e.url) (T + effWeight e) hTe hw hpre' hpost
        (fun h => hd_ne_e (Option.some.inj h).symm)
      have h2 := ih d post sel (T + effWeight e) hTe hw hpre' hpost hsel
      rw [h1, h2]
      have hps : posSum (e :: (pre' ++ d :: post))
          = effWeight e + posSum (pre' ++ d :: post) := by
        rw [posSum, if_pos hwe']
      rw [hps]
      ring

/-- Measure-theoretic justification for `accProb`: the set of draws
`x` in `[0, 1)` accepted by the loop's test `x * (totalWeight + weight) <
weight` has Lebesgue measure exactly `accProb totalWeight weight`. -/
theorem accept_event_volume (T w : ℚ) (hT : 0 ≤ T) (hw : 0 < w) :
    MeasureTheory.volume
        {x : ℝ | x ∈ Set.Ico (0:ℝ) 1 ∧ x * ((T:ℝ) + (w:ℝ)) < (w:ℝ)}
      = ENNReal.ofReal ((accProb T w : ℚ)) := by
  have hT' : (0:ℝ) ≤ (T:ℝ) := by exact_mod_cast hT
  have hw' : (0:ℝ) < (w:ℝ) := by exact_mod_cast hw
  have hTw : (0:ℝ) < (T:ℝ) + (w:ℝ) := by linarith
  have hset : {x : ℝ | x ∈ Set.Ico (0:ℝ) 1 ∧ x * ((T:ℝ) + (w:ℝ)) < (w:ℝ)}
      = Set.Ico 0 ((w:ℝ) / ((T:ℝ) + (w:ℝ))) := by
    ext x
    simp only [Set.mem_Ico, Set.mem_setOf_eq]
    constructor
    · rintro ⟨⟨h0, _⟩, hx⟩
      exact ⟨h0, (lt_div_iff₀ hTw).mpr hx⟩
    · rintro ⟨h0, hx⟩
      have hle : (w:ℝ) / ((T:ℝ) + (w:ℝ)) ≤ 1 := by
        rw [div_le_one hTw]; linarith
      exact ⟨⟨h0, lt_of_lt_of_le hx hle⟩, (lt_div_iff₀ hTw).mp hx⟩
  rw [hset, Real.volume_Ico, sub_zero]
  congr 1
  rw [accProb]
  push_cast
  rfl

/-! ## C4 -/

/-- C4, confirmed: under the distribution semantics `selectDist` of the
sampling loop (each draw uniform on `[0,1)`, see `accept_event_volume`),
every positively-weighted destination `d` of a list whose positively-weighted
urls are pairwise distinct is returned with probability
`effWeight d / posSum dests` — exactly weighted reservoir sampling with
reservoir size 1. -/
theorem spec_C4 (dests : List Dest) (d : Dest)
    (hmem : d ∈ dests) (hw : 0 < effWeight d)
    (hnodup : (posUrls dests).Nodup) :
    selectDist dests (some d.url) = effWeight d / posSum dests := by
  obtain ⟨pre, post, rfl⟩ := List.append_of_mem hmem
  rw [posUrls_append, show posUrls (d :: post) = d.url :: posUrls post from by
    rw [posUrls, if_pos hw]] at hnodup
  rw [List.nodup_append] at hnodup
  obtain ⟨-, hcons, hdisj⟩ := hnodup
  have hpre : ∀ u ∈ posUrls pre, d.url ≠ u := by
    intro u hu h
    exact hdisj hu (by simp [h])
  have hpost : ∀ u ∈ posUrls post, d.url ≠ u := by
    intro u hu h
    exact (List.nodup_cons.mp hcons).1 (h ▸ hu)
  have h := selectDistAux_target pre d post none 0 le_rfl hw hpre hpost
    (by simp)
  rw [selectDist, h, zero_add]

/-- C4, witness: for weights `{A: 3, B: 1}` the loop selects `A` with
probability `3 / 4`. -/
theorem spec_C4_witness :
    (⟨"https://a.example", some 3, none, none⟩ : Dest) ∈
      ([⟨"https://a.example", some 3, none, none⟩,
        ⟨"https://b.example", some 1, none, none⟩] : List Dest) ∧
    (0:ℚ) < effWeight (⟨"https://a.example", some 3, none, none⟩ : Dest) ∧
    (posUrls ([⟨"https://a.example", some 3, none, none⟩,
        ⟨"https://b.example", some 1, none, none⟩] : List Dest)).Nodup ∧
    selectDist
      ([⟨"https://a.example", some 3, none, none⟩,
        ⟨"https://b.example", some 1, none, none⟩] : List Dest)
      (some "https://a.example")
      = effWeight (⟨"https://a.example", some 3, none, none⟩ : Dest) /
        posSum ([⟨"https://a.example", some 3, none, none⟩,
          ⟨"https://b.example", some 1, none, none⟩] : List Dest) := by
  refine ⟨by decide, by decide, by decide, ?_⟩
  exact spec_C4
    ([⟨"https://a.example", some 3, none, none⟩,
      ⟨"https://b.example", some 1, none, none⟩] : List Dest)
    (⟨"https://a.example", some 3, none, none⟩ : Dest)
    (by decide) (by decide) (by decide)
